import Mathlib

/-!
# Verification of the telegraf configuration-synchronization core

Shallow embedding of the configuration-sync subsystem of this telegraf fork:
the section splicer (`updateInputPluginConfig`), the fingerprinter
(`calculateMd5OfInputPluginConfig`), the poll-response dispatch (`write`),
the binary-update path (`updateTelegraf`) and the revision store
(`getRevision`).  The repository contains several historical variants of
these functions; each embedded definition names the variant it is taken
from.  File contents are modelled as `String`s, lines as `String`s that
keep their terminating newline, machine integers as `Int`, and the MD5
digest is embedded in full so that fingerprints can be evaluated on
concrete inputs.
-/

set_option maxHeartbeats 1000000
set_option maxRecDepth 100000

/-! ## Basic string machinery -/

/-- Substring search on character lists, the model of Go's
`strings.Contains`: true iff `pat` occurs contiguously in the list. -/
def containsChars (pat : List Char) : List Char → Bool
  | [] => pat.isEmpty
  | c :: rest => pat.isPrefixOf (c :: rest) || containsChars pat rest

/-- Model of Go's `strings.Contains s pat`. -/
def strContains (s pat : String) : Bool :=
  containsChars pat.data s.data

/-- Go `unicode.IsSpace` restricted to the code points Go treats as white
space in Latin-1 (space, tab, newline, vertical tab, form feed, carriage
return, NEL, NBSP). -/
def isGoSpace (c : Char) : Bool :=
  c.toNat = 32 || c.toNat = 9 || c.toNat = 10 || c.toNat = 11 ||
  c.toNat = 12 || c.toNat = 13 || c.toNat = 133 || c.toNat = 160

/-- Model of Go's `len(strings.TrimSpace(l)) > 0`: the line has at least one
non-whitespace character, i.e. it is not a blank line. -/
def hasContent (l : String) : Bool :=
  l.data.any (fun c => !(isGoSpace c))

/-- Model of Go's `strings.TrimSuffix`. -/
def trimSuffixStr (s suf : String) : String :=
  if suf.data.isSuffixOf s.data then
    ⟨s.data.take (s.data.length - suf.data.length)⟩
  else s

/-- Concatenation of a list of lines back into file bytes. -/
def joinLines : List String → String
  | [] => ""
  | l :: ls => l ++ joinLines ls

/-! ## Reading a file line by line

`bufio.Reader.ReadString('\n')` returns each line including its
terminating `'\n'`; at end of file it returns the remaining bytes together
with `io.EOF`, and every loop in this repository then `break`s, discarding
that final unterminated fragment.  `readLinesChars` is exactly that
semantics: the complete (newline-terminated) lines, the unterminated tail
dropped. -/

/-- Prepend a character to the first line of a line list (helper for
`readLinesChars`); on the empty list the character belongs to the dropped
unterminated tail. -/
def consFirst (c : Char) : List (List Char) → List (List Char)
  | [] => []
  | l :: ls => (c :: l) :: ls

def readLinesChars : List Char → List (List Char)
  | [] => []
  | c :: cs =>
    if c = '\n' then ['\n'] :: readLinesChars cs
    else consFirst c (readLinesChars cs)

/-- The complete lines of a file's bytes, each keeping its `'\n'`. -/
def readLinesStr (s : String) : List String :=
  (readLinesChars s.data).map (fun l => ⟨l⟩)

/-- A well-formed single line: nonempty, ends with `'\n'`, and contains no
interior newline. -/
def isLineChars : List Char → Bool
  | [] => false
  | c :: rest => if c = '\n' then rest.isEmpty else isLineChars rest

def isLineStr (s : String) : Bool := isLineChars s.data

/-- The list ends with a newline character (or is empty). -/
def endsNL : List Char → Bool
  | [] => true
  | c :: rest => if rest.isEmpty then c = '\n' else endsNL rest

theorem readLinesChars_cons_nl (cs : List Char) :
    readLinesChars ('\n' :: cs) = ['\n'] :: readLinesChars cs := by
  simp [readLinesChars]

theorem readLinesChars_cons_ne (c : Char) (cs : List Char) (hc : c ≠ '\n') :
    readLinesChars (c :: cs) = consFirst c (readLinesChars cs) := by
  simp [readLinesChars, hc]

theorem endsNL_cons_of_ne_nil (c : Char) (cs : List Char) (h : cs ≠ []) :
    endsNL (c :: cs) = endsNL cs := by
  cases cs with
  | nil => exact absurd rfl h
  | cons d rest => simp [endsNL]

theorem consFirst_append (c : Char) (L M : List (List Char)) (hL : L ≠ []) :
    consFirst c (L ++ M) = consFirst c L ++ M := by
  cases L with
  | nil => exact absurd rfl hL
  | cons l ls => rfl

theorem endsNL_of_isLine : ∀ l, isLineChars l = true → endsNL l = true := by
  intro l h
  induction l with
  | nil => simp [isLineChars] at h
  | cons c rest ih =>
    by_cases hc : c = '\n'
    · subst hc
      simp only [isLineChars, if_pos rfl] at h
      have : rest = [] := by simpa using h
      subst this; rfl
    · simp only [isLineChars, if_neg hc] at h
      have hrest : rest ≠ [] := by
        intro hr; subst hr; simp [isLineChars] at h
      rw [endsNL_cons_of_ne_nil c rest hrest]
      exact ih h

theorem readLinesChars_ne_nil (x : List Char) (hx : endsNL x = true)
    (hne : x ≠ []) : readLinesChars x ≠ [] := by
  induction x with
  | nil => exact absurd rfl hne
  | cons c cs ih =>
    by_cases hcs : cs = []
    · subst hcs
      have hc : c = '\n' := by simpa [endsNL] using hx
      subst hc
      simp [readLinesChars_cons_nl]
    · have hx' : endsNL cs = true := by
        rw [endsNL_cons_of_ne_nil c cs hcs] at hx; exact hx
      by_cases hc : c = '\n'
      · subst hc; simp [readLinesChars_cons_nl]
      · rw [readLinesChars_cons_ne c cs hc]
        have := ih hx' hcs
        cases hcase : readLinesChars cs with
        | nil => exact absurd hcase this
        | cons l ls => simp [consFirst]

theorem readLinesChars_append (x y : List Char) (hx : endsNL x = true) :
    readLinesChars (x ++ y) = readLinesChars x ++ readLinesChars y := by
  induction x with
  | nil => rfl
  | cons c cs ih =>
    by_cases hcs : cs = []
    · subst hcs
      have hc : c = '\n' := by simpa [endsNL] using hx
      subst hc
      simp [readLinesChars_cons_nl, readLinesChars]
    · have hx' : endsNL cs = true := by
        rw [endsNL_cons_of_ne_nil c cs hcs] at hx; exact hx
      by_cases hc : c = '\n'
      · subst hc
        rw [List.cons_append, readLinesChars_cons_nl, readLinesChars_cons_nl,
          ih hx', List.cons_append]
      · rw [List.cons_append, readLinesChars_cons_ne c _ hc,
          readLinesChars_cons_ne c _ hc, ih hx',
          consFirst_append c _ _ (readLinesChars_ne_nil cs hx' hcs)]

theorem readLinesChars_no_nl (x : List Char) (hx : '\n' ∉ x) :
    readLinesChars x = [] := by
  induction x with
  | nil => rfl
  | cons c rest ih =>
    have hc : c ≠ '\n' := fun h => hx (h ▸ List.mem_cons_self c rest)
    have hrest : '\n' ∉ rest := fun h => hx (List.mem_cons_of_mem c h)
    rw [readLinesChars_cons_ne c rest hc, ih hrest]
    rfl

theorem readLinesChars_single (l : List Char) (hl : isLineChars l = true) :
    readLinesChars l = [l] := by
  induction l with
  | nil => simp [isLineChars] at hl
  | cons c rest ih =>
    by_cases hc : c = '\n'
    · subst hc
      simp only [isLineChars, if_pos rfl] at hl
      have : rest = [] := by simpa using hl
      subst this
      simp [readLinesChars_cons_nl, readLinesChars]
    · simp only [isLineChars, if_neg hc] at hl
      rw [readLinesChars_cons_ne c rest hc, ih hl]
      rfl

theorem readLinesChars_isLine (x : List Char) :
    ∀ l ∈ readLinesChars x, isLineChars l = true := by
  induction x with
  | nil => intro l h; simp [readLinesChars] at h
  | cons c rest ih =>
    intro l h
    by_cases hc : c = '\n'
    · subst hc
      rw [readLinesChars_cons_nl] at h
      rcases List.mem_cons.mp h with h1 | h2
      · subst h1; rfl
      · exact ih l h2
    · rw [readLinesChars_cons_ne c rest hc] at h
      cases hcase : readLinesChars rest with
      | nil => rw [hcase] at h; simp [consFirst] at h
      | cons m ms =>
        rw [hcase] at h
        rcases List.mem_cons.mp h with h1 | h2
        · subst h1
          have hm : isLineChars m = true := ih m (hcase ▸ List.mem_cons_self m ms)
          simp [isLineChars, hc, hm]
        · exact ih l (hcase ▸ List.mem_cons_of_mem m h2)

theorem string_data_append (a b : String) : (a ++ b).data = a.data ++ b.data := rfl

theorem readLinesStr_append (x y : String) (hx : endsNL x.data = true) :
    readLinesStr (x ++ y) = readLinesStr x ++ readLinesStr y := by
  unfold readLinesStr
  rw [string_data_append, readLinesChars_append _ _ hx, List.map_append]

theorem readLinesStr_line_cons (l y : String) (hl : isLineStr l = true) :
    readLinesStr (l ++ y) = l :: readLinesStr y := by
  rw [readLinesStr_append _ _ (endsNL_of_isLine _ hl)]
  unfold readLinesStr
  rw [readLinesChars_single _ hl]
  cases l; rfl

theorem readLinesStr_join_append (L : List String) (rest : String)
    (hL : ∀ l ∈ L, isLineStr l = true) :
    readLinesStr (joinLines L ++ rest) = L ++ readLinesStr rest := by
  induction L with
  | nil =>
    have : joinLines [] ++ rest = rest := by
      show "" ++ rest = rest
      apply String.ext
      rw [string_data_append]
      rfl
    rw [this]; rfl
  | cons l ls ih =>
    have hassoc : joinLines (l :: ls) ++ rest = l ++ (joinLines ls ++ rest) := by
      show (l ++ joinLines ls) ++ rest = l ++ (joinLines ls ++ rest)
      apply String.ext
      simp [string_data_append, List.append_assoc]
    rw [hassoc, readLinesStr_line_cons _ _ (hL l (List.mem_cons_self l ls)),
      ih (fun x hx => hL x (List.mem_cons_of_mem l hx))]
    rfl

theorem readLinesStr_isLine (x : String) :
    ∀ l ∈ readLinesStr x, isLineStr l = true := by
  intro l hl
  unfold readLinesStr at hl
  rcases List.mem_map.mp hl with ⟨m, hm, hml⟩
  have := readLinesChars_isLine x.data m hm
  subst hml
  exact this

/-! ## MD5

Full embedding of the MD5 digest (RFC 1321) over byte lists, with bytes as
`Nat` and 32-bit words as `Nat` reduced modulo `2 ^ 32`, matching Go's
`crypto/md5` followed by `encoding/hex` / `fmt.Sprintf("%x", ...)`. -/

def u32mod : Nat := 4294967296

def add32 (a b : Nat) : Nat := (a + b) % u32mod

def not32 (x : Nat) : Nat := 4294967295 - x

def rotl32 (x s : Nat) : Nat :=
  ((x <<< s) % u32mod) + (x >>> (32 - s))

def md5K : List Nat :=
  [0xd76aa478, 0xe8c7b756, 0x242070db, 0xc1bdceee,
   0xf57c0faf, 0x4787c62a, 0xa8304613, 0xfd469501,
   0x698098d8, 0x8b44f7af, 0xffff5bb1, 0x895cd7be,
   0x6b901122, 0xfd987193, 0xa679438e, 0x49b40821,
   0xf61e2562, 0xc040b340, 0x265e5a51, 0xe9b6c7aa,
   0xd62f105d, 0x02441453, 0xd8a1e681, 0xe7d3fbc8,
   0x21e1cde6, 0xc33707d6, 0xf4d50d87, 0x455a14ed,
   0xa9e3e905, 0xfcefa3f8, 0x676f02d9, 0x8d2a4c8a,
   0xfffa3942, 0x8771f681, 0x6d9d6122, 0xfde5380c,
   0xa4beea44, 0x4bdecfa9, 0xf6bb4b60, 0xbebfbc70,
   0x289b7ec6, 0xeaa127fa, 0xd4ef3085, 0x04881d05,
   0xd9d4d039, 0xe6db99e5, 0x1fa27cf8, 0xc4ac5665,
   0xf4292244, 0x432aff97, 0xab9423a7, 0xfc93a039,
   0x655b59c3, 0x8f0ccc92, 0xffeff47d, 0x85845dd1,
   0x6fa87e4f, 0xfe2ce6e0, 0xa3014314, 0x4e0811a1,
   0xf7537e82, 0xbd3af235, 0x2ad7d2bb, 0xeb86d391]

def md5S : List Nat :=
  [7, 12, 17, 22, 7, 12, 17, 22, 7, 12, 17, 22, 7, 12, 17, 22,
   5, 9, 14, 20, 5, 9, 14, 20, 5, 9, 14, 20, 5, 9, 14, 20,
   4, 11, 16, 23, 4, 11, 16, 23, 4, 11, 16, 23, 4, 11, 16, 23,
   6, 10, 15, 21, 6, 10, 15, 21, 6, 10, 15, 21, 6, 10, 15, 21]

/-- One MD5 round step; `i` is the round index `0 ≤ i < 64`, `m` the
16-word message block. -/
def md5Round (m : List Nat) (st : Nat × Nat × Nat × Nat) (i : Nat) :
    Nat × Nat × Nat × Nat :=
  let a := st.1
  let b := st.2.1
  let c := st.2.2.1
  let d := st.2.2.2
  let f :=
    if i < 16 then (b &&& c) ||| (not32 b &&& d)
    else if i < 32 then (d &&& b) ||| (not32 d &&& c)
    else if i < 48 then b ^^^ c ^^^ d
    else c ^^^ (b ||| not32 d)
  let g :=
    if i < 16 then i
    else if i < 32 then (5 * i + 1) % 16
    else if i < 48 then (3 * i + 5) % 16
    else (7 * i) % 16
  let f := (f + a + md5K.getD i 0 + m.getD g 0) % u32mod
  (d, add32 b (rotl32 f (md5S.getD i 0)), b, c)

/-- Split the bytes of one 64-byte block into 16 little-endian words. -/
def md5Words (block : List Nat) : List Nat :=
  (List.range 16).map (fun j =>
    block.getD (4 * j) 0 + 256 * block.getD (4 * j + 1) 0 +
    65536 * block.getD (4 * j + 2) 0 + 16777216 * block.getD (4 * j + 3) 0)

def md5Compress (st : Nat × Nat × Nat × Nat) (block : List Nat) :
    Nat × Nat × Nat × Nat :=
  let m := md5Words block
  let r := (List.range 64).foldl (md5Round m) st
  (add32 st.1 r.1, add32 st.2.1 r.2.1, add32 st.2.2.1 r.2.2.1,
   add32 st.2.2.2 r.2.2.2)

/-- Fuel-driven 64-byte chunking (fuel bounded by the list length keeps the
recursion structural, so concrete digests reduce in the kernel). -/
def chunks64Aux : Nat → List Nat → List (List Nat)
  | 0, _ => []
  | _, [] => []
  | fuel + 1, c :: cs => (c :: cs).take 64 :: chunks64Aux fuel ((c :: cs).drop 64)

def chunks64 (l : List Nat) : List (List Nat) := chunks64Aux l.length l

/-- MD5 padding: `0x80`, zeros to 56 mod 64, then the bit length as eight
little-endian bytes. -/
def md5Pad (msg : List Nat) : List Nat :=
  let len := msg.length
  let padLen := (119 - (len % 64)) % 64
  msg ++ 128 :: List.replicate padLen 0 ++
    (List.range 8).map (fun i => ((len * 8) >>> (8 * i)) % 256)

def toLE4 (x : Nat) : List Nat :=
  [x % 256, (x >>> 8) % 256, (x >>> 16) % 256, (x >>> 24) % 256]

def md5Bytes (msg : List Nat) : List Nat :=
  let r := (chunks64 (md5Pad msg)).foldl md5Compress
    (0x67452301, 0xefcdab89, 0x98badcfe, 0x10325476)
  toLE4 r.1 ++ toLE4 r.2.1 ++ toLE4 r.2.2.1 ++ toLE4 r.2.2.2

def hexDigitChar (n : Nat) : Char :=
  if n = 0 then '0' else if n = 1 then '1' else if n = 2 then '2'
  else if n = 3 then '3' else if n = 4 then '4' else if n = 5 then '5'
  else if n = 6 then '6' else if n = 7 then '7' else if n = 8 then '8'
  else if n = 9 then '9' else if n = 10 then 'a' else if n = 11 then 'b'
  else if n = 12 then 'c' else if n = 13 then 'd' else if n = 14 then 'e'
  else 'f'

def byteHex (b : Nat) : List Char := [hexDigitChar (b / 16), hexDigitChar (b % 16)]

/-- UTF-8 encoding of one character, the byte representation Go strings use. -/
def utf8EncodeChar (c : Char) : List Nat :=
  let n := c.toNat
  if n < 128 then [n]
  else if n < 2048 then [192 + n / 64, 128 + n % 64]
  else if n < 65536 then [224 + n / 4096, 128 + (n / 64) % 64, 128 + n % 64]
  else [240 + n / 262144, 128 + (n / 4096) % 64, 128 + (n / 64) % 64, 128 + n % 64]

def utf8Bytes (s : String) : List Nat :=
  (s.data.map utf8EncodeChar).flatten

/-- Lowercase hexadecimal MD5 digest of a string's bytes: the model of
Go's `fmt.Sprintf("%x", md5sum)`. -/
def md5HexOfString (s : String) : String :=
  ⟨((md5Bytes (utf8Bytes s)).map byteHex).flatten⟩

/-- Sanity anchor: the embedded MD5 reproduces the standard digest of the
empty input. -/
theorem md5_empty_vector :
    md5HexOfString "" = "d41d8cd98f00b204e9800998ecf8427e" := by decide

/-- Sanity anchor: the embedded MD5 reproduces the standard digest of
`"abc"`. -/
theorem md5_abc_vector :
    md5HexOfString "abc" = "900150983cd24fb0d6963f7d28e17f72" := by decide

/-! ## String append helpers -/

theorem string_append_empty (s : String) : s ++ "" = s := by
  apply String.ext
  rw [string_data_append]
  exact List.append_nil _

theorem string_empty_append (s : String) : "" ++ s = s := by
  apply String.ext
  rw [string_data_append]
  rfl

theorem string_append_assoc (a b c : String) : a ++ b ++ c = a ++ (b ++ c) := by
  apply String.ext
  simp [string_data_append, List.append_assoc]

theorem joinLines_append (A B : List String) :
    joinLines (A ++ B) = joinLines A ++ joinLines B := by
  induction A with
  | nil =>
    show joinLines B = "" ++ joinLines B
    rw [string_empty_append]
  | cons l ls ih =>
    show l ++ joinLines (ls ++ B) = (l ++ joinLines ls) ++ joinLines B
    rw [ih, string_append_assoc]

/-! ## The section splicer, part_000 lines 888-1004

`updateInputPluginConfig(inputPluginConfig, inputPluginConfigMd5,
configFilePath)` streams `telegraf.conf` line by line into
`telegraf.conf.new`.  Its loop state is the `copyLineToOutput` flag, the
1-based `lineNumber`, and `inputPluginLinesStart` (0 until the start
sentinel is seen, then its line number plus 4).  The loop body below is a
direct transcription of the Go loop body; the inserted chunk `ins` stands
for the revision/timestamp comment plus blank line plus new content plus
final newline that lines 930-956 print when
`lineNumber == inputPluginLinesStart-2`. -/

namespace OutputHttp

/-- Constant `InputPluginStart` of `updateInputPluginConfig` (part_000
lines 889, 1467): the INPUT PLUGINS banner. -/
def InputPluginStart : String :=
  "#                            INPUT PLUGINS                                    #"

/-- Constant `PluginEnd` (part_000 lines 890, 1008, 1468): the full-width
separator that closes a section. -/
def PluginEnd : String :=
  "###############################################################################"

/-- Constant `InputPluginStart` of `calculateMd5OfInputPluginConfig`
(part_000 line 1007). -/
def InputPluginStartMd5 : String := "[[inputs."

structure SpliceState where
  copyLineToOutput : Bool
  lineNumber : Int
  inputPluginLinesStart : Int
  out : String

/-- One iteration of the copy loop of `updateInputPluginConfig` (part_000
lines 916-964) on one complete line. -/
def spliceStep (ins : String) (st : SpliceState) (line : String) : SpliceState :=
  let ipls : Int :=
    if strContains line InputPluginStart = true ∧ st.inputPluginLinesStart = 0 then
      st.lineNumber + 4
    else st.inputPluginLinesStart
  let out1 : String := if st.lineNumber = ipls - 2 then st.out ++ ins else st.out
  let copy1 : Bool := if st.lineNumber = ipls - 2 then false else st.copyLineToOutput
  let copy2 : Bool :=
    if strContains line PluginEnd = true ∧ ipls < st.lineNumber then true else copy1
  let out2 : String := if copy2 = true then out1 ++ line else out1
  ⟨copy2, st.lineNumber + 1, ipls, out2⟩

def spliceRun (ins : String) (lines : List String) : SpliceState :=
  lines.foldl (spliceStep ins) ⟨true, 1, 0, ""⟩

/-- The revision/timestamp comment line printed at part_000 lines 931-933;
the timestamp is a parameter. -/
def revisionLine (m t : String) : String :=
  "# Revision: " ++ m ++ ", Time: " ++ t ++ " #\n"

/-- The whole chunk inserted in place of the managed section: comment
line, blank separator, new content, final newline (part_000 lines
931-956). -/
def insChunk (m t cfg : String) : String :=
  revisionLine m t ++ "\n" ++ cfg ++ "\n"

/-- The bytes `updateInputPluginConfig` (part_000 lines 888-1004) writes to
`telegraf.conf.new`, as a function of the new content `cfg`, its md5 `m`,
the timestamp `t` and the bytes of `telegraf.conf`. -/
def updateInputPluginConfigContent (cfg m t : String) (conf : String) : String :=
  (spliceRun (insChunk m t cfg) (readLinesStr conf)).out

theorem spliceStep_pre (ins line : String) (ln : Int) (o : String)
    (hline : strContains line InputPluginStart = false)
    (hln : 1 ≤ ln) :
    spliceStep ins ⟨true, ln, 0, o⟩ line = ⟨true, ln + 1, 0, o ++ line⟩ := by
  simp only [spliceStep]
  simp [hline, show ¬(ln = (0:Int) - 2) from by omega,
    show ¬(ln = (-2 : Int)) from by omega]

theorem spliceStep_sentinel (ins line : String) (ln : Int) (o : String)
    (hline : strContains line InputPluginStart = true)
    (hln : 1 ≤ ln) :
    spliceStep ins ⟨true, ln, 0, o⟩ line = ⟨true, ln + 1, ln + 4, o ++ line⟩ := by
  simp only [spliceStep]
  simp [hline, show ¬(ln = ln + 4 - 2) from by omega,
    show ¬(ln + 4 < ln) from by omega]

theorem spliceStep_between (ins line : String) (ln ip : Int) (o : String)
    (hip : ip ≠ 0) (hhit : ln ≠ ip - 2) (hlt : ¬(ip < ln)) :
    spliceStep ins ⟨true, ln, ip, o⟩ line = ⟨true, ln + 1, ip, o ++ line⟩ := by
  simp only [spliceStep]
  simp [hip, hhit, hlt]

theorem spliceStep_hit (ins line : String) (ln ip : Int) (o : String)
    (hip : ip ≠ 0) (hhit : ln = ip - 2) :
    spliceStep ins ⟨true, ln, ip, o⟩ line = ⟨false, ln + 1, ip, o ++ ins⟩ := by
  subst hhit
  simp only [spliceStep]
  simp [hip, show ¬(ip < ip - 2) from by omega]

theorem spliceStep_skipEarly (ins line : String) (ln ip : Int) (o : String)
    (hip : ip ≠ 0) (hhit : ln ≠ ip - 2) (hlt : ¬(ip < ln)) :
    spliceStep ins ⟨false, ln, ip, o⟩ line = ⟨false, ln + 1, ip, o⟩ := by
  simp only [spliceStep]
  simp [hip, hhit, hlt]

theorem spliceStep_skip (ins line : String) (ln ip : Int) (o : String)
    (hip : ip ≠ 0) (hlt : ip < ln)
    (hline : strContains line PluginEnd = false) :
    spliceStep ins ⟨false, ln, ip, o⟩ line = ⟨false, ln + 1, ip, o⟩ := by
  simp only [spliceStep]
  simp [hip, hlt, hline, show ¬(ln = ip - 2) from by omega]

theorem spliceStep_reenable (ins line : String) (ln ip : Int) (o : String)
    (hip : ip ≠ 0) (hlt : ip < ln)
    (hline : strContains line PluginEnd = true) :
    spliceStep ins ⟨false, ln, ip, o⟩ line = ⟨true, ln + 1, ip, o ++ line⟩ := by
  simp only [spliceStep]
  simp [hip, hlt, hline, show ¬(ln = ip - 2) from by omega]

theorem spliceStep_post (ins line : String) (ln ip : Int) (o : String)
    (hip : ip ≠ 0) (hlt : ip < ln) :
    spliceStep ins ⟨true, ln, ip, o⟩ line = ⟨true, ln + 1, ip, o ++ line⟩ := by
  simp only [spliceStep]
  simp [hip, hlt, show ¬(ln = ip - 2) from by omega]

theorem spliceFold_pre (ins : String) (P : List String) (ln : Int) (o : String)
    (hP : ∀ l ∈ P, strContains l InputPluginStart = false)
    (hln : 1 ≤ ln) :
    P.foldl (spliceStep ins) ⟨true, ln, 0, o⟩ =
      ⟨true, ln + P.length, 0, o ++ joinLines P⟩ := by
  induction P generalizing ln o with
  | nil => simp [joinLines, string_append_empty]
  | cons l ls ih =>
    rw [List.foldl_cons,
      spliceStep_pre ins l ln o (hP l (List.mem_cons_self l ls)) hln,
      ih (ln + 1) (o ++ l) (fun x hx => hP x (List.mem_cons_of_mem l hx)) (by omega)]
    have h1 : ln + 1 + (ls.length : Int) = ln + ((l :: ls).length : Int) := by
      push_cast [List.length_cons]; omega
    have h2 : o ++ l ++ joinLines ls = o ++ joinLines (l :: ls) := by
      show o ++ l ++ joinLines ls = o ++ (l ++ joinLines ls)
      rw [string_append_assoc]
    rw [h1, h2]

theorem spliceFold_skip (ins : String) (T : List String) (ln ip : Int) (o : String)
    (hip : ip ≠ 0) (hlt : ip < ln)
    (hT : ∀ l ∈ T, strContains l PluginEnd = false) :
    T.foldl (spliceStep ins) ⟨false, ln, ip, o⟩ =
      ⟨false, ln + T.length, ip, o⟩ := by
  induction T generalizing ln with
  | nil => simp
  | cons l ls ih =>
    rw [List.foldl_cons,
      spliceStep_skip ins l ln ip o hip hlt (hT l (List.mem_cons_self l ls)),
      ih (ln + 1) (by omega) (fun x hx => hT x (List.mem_cons_of_mem l hx))]
    have h1 : ln + 1 + (ls.length : Int) = ln + ((l :: ls).length : Int) := by
      push_cast [List.length_cons]; omega
    rw [h1]

theorem spliceFold_post (ins : String) (T : List String) (ln ip : Int) (o : String)
    (hip : ip ≠ 0) (hlt : ip < ln) :
    T.foldl (spliceStep ins) ⟨true, ln, ip, o⟩ =
      ⟨true, ln + T.length, ip, o ++ joinLines T⟩ := by
  induction T generalizing ln o with
  | nil => simp [joinLines, string_append_empty]
  | cons l ls ih =>
    rw [List.foldl_cons, spliceStep_post ins l ln ip o hip hlt,
      ih (ln + 1) (o ++ l) (by omega)]
    have h1 : ln + 1 + (ls.length : Int) = ln + ((l :: ls).length : Int) := by
      push_cast [List.length_cons]; omega
    have h2 : o ++ l ++ joinLines ls = o ++ joinLines (l :: ls) := by
      show o ++ l ++ joinLines ls = o ++ (l ++ joinLines ls)
      rw [string_append_assoc]
    rw [h1, h2]

/-- Full shape of one run of the splice loop on a file whose lines are
`P`, the start-sentinel line `s`, the three following lines `a b c`, the
line `d` at the fixed offset 4, then lines `T1` up to the first
end-sentinel line `e`, then `T2`.  Everything before `s`, `s` itself and
the line right after it are copied verbatim; the inserted chunk replaces
lines `b..d` and `T1`; from `e` on everything is copied verbatim. -/
theorem spliceRun_shape (ins : String) (P : List String) (s a b c d : String)
    (T1 : List String) (e : String) (T2 : List String)
    (hP : ∀ l ∈ P, strContains l InputPluginStart = false)
    (hs : strContains s InputPluginStart = true)
    (hT1 : ∀ l ∈ T1, strContains l PluginEnd = false)
    (he : strContains e PluginEnd = true) :
    (spliceRun ins (P ++ s :: a :: b :: c :: d :: (T1 ++ e :: T2))).out =
      joinLines P ++ s ++ a ++ ins ++ (e ++ joinLines T2) := by
  unfold spliceRun
  rw [List.foldl_append, spliceFold_pre ins P 1 "" hP (by omega),
    string_empty_append]
  set n : Int := 1 + P.length with hn
  have hn1 : 1 ≤ n := by omega
  rw [List.foldl_cons, spliceStep_sentinel ins s n (joinLines P) hs hn1]
  rw [List.foldl_cons, spliceStep_between ins a (n + 1) (n + 4) (joinLines P ++ s)
    (by omega) (by omega) (by omega)]
  rw [List.foldl_cons, spliceStep_hit ins b (n + 1 + 1) (n + 4) (joinLines P ++ s ++ a)
    (by omega) (by omega)]
  rw [List.foldl_cons, spliceStep_skipEarly ins c (n + 1 + 1 + 1) (n + 4)
    (joinLines P ++ s ++ a ++ ins) (by omega) (by omega) (by omega)]
  rw [List.foldl_cons, spliceStep_skipEarly ins d (n + 1 + 1 + 1 + 1) (n + 4)
    (joinLines P ++ s ++ a ++ ins) (by omega) (by omega) (by omega)]
  rw [List.foldl_append, spliceFold_skip ins T1 (n + 1 + 1 + 1 + 1 + 1) (n + 4)
    (joinLines P ++ s ++ a ++ ins) (by omega) (by omega) hT1]
  rw [List.foldl_cons, spliceStep_reenable ins e (n + 1 + 1 + 1 + 1 + 1 + T1.length)
    (n + 4) (joinLines P ++ s ++ a ++ ins) (by omega) (by omega) he]
  rw [spliceFold_post ins T2 (n + 1 + 1 + 1 + 1 + 1 + T1.length + 1) (n + 4)
    (joinLines P ++ s ++ a ++ ins ++ e) (by omega) (by omega)]
  simp only [string_append_assoc]

end OutputHttp

/-! ## Containment and blank-line helpers -/

theorem containsChars_any (p : List Char) (f : Char → Bool) :
    ∀ x, containsChars p x = true → p.any f = true → x.any f = true := by
  intro x
  induction x with
  | nil =>
    intro h hp
    have : p = [] := by
      simp only [containsChars, List.isEmpty_iff] at h
      exact h
    subst this
    simp at hp
  | cons c rest ih =>
    intro h hp
    have h' : p <+: c :: rest ∨ containsChars p rest = true := by
      simpa [containsChars] using h
    rcases h' with h1 | h2
    · rcases h1 with ⟨t, ht⟩
      rw [← ht]
      simp [List.any_append, hp]
    · have := ih h2 hp
      simp [List.any_cons, this]

/-- A line containing a pattern that has a non-blank character is itself
non-blank. -/
theorem hasContent_of_strContains (l p : String)
    (h : strContains l p = true) (hp : hasContent p = true) :
    hasContent l = true :=
  containsChars_any p.data _ l.data h hp

theorem readLinesStr_join (L : List String) (hL : ∀ l ∈ L, isLineStr l = true) :
    readLinesStr (joinLines L) = L := by
  have h := readLinesStr_join_append L "" hL
  rw [string_append_empty] at h
  have h0 : readLinesStr "" = [] := rfl
  rw [h0, List.append_nil] at h
  exact h

/-! ## The fingerprinter, part_000 lines 1006-1072

`calculateMd5OfInputPluginConfig` scans `telegraf.conf` for the first line
containing `"[[inputs."`, accumulates every subsequent non-blank line
until the first full-width separator line strictly after it, trims one
trailing `"\n"` and one trailing `"\r"`, and returns the hex MD5 of the
result.  The loop below carries the `broke` flag to model Go's `break`. -/

structure Md5State where
  writeToBuf : Bool
  lineNumber : Int
  inputPluginLinesStart : Int
  acc : String
  broke : Bool

def trimNLCR (s : String) : String := trimSuffixStr (trimSuffixStr s "\n") "\r"

namespace OutputHttp

/-- One iteration of the scan loop of `calculateMd5OfInputPluginConfig`
(part_000 lines 1029-1058). -/
def md5Step (st : Md5State) (line : String) : Md5State :=
  if st.broke = true then st
  else
    let ipls : Int :=
      if strContains line InputPluginStartMd5 = true ∧ st.inputPluginLinesStart = 0 then
        st.lineNumber
      else st.inputPluginLinesStart
    let wtb : Bool := if st.lineNumber = ipls then true else st.writeToBuf
    if strContains line PluginEnd = true ∧ 0 < ipls ∧ ipls < st.lineNumber then
      ⟨wtb, st.lineNumber, ipls, st.acc, true⟩
    else
      ⟨wtb, st.lineNumber + 1, ipls,
        if wtb = true ∧ hasContent line = true then st.acc ++ line else st.acc,
        false⟩

def calculateMd5Run (lines : List String) : Md5State :=
  lines.foldl md5Step ⟨false, 1, 0, "", false⟩

/-- Function `calculateMd5OfInputPluginConfig` (part_000 lines 1006-1072) as a
function of the bytes of `telegraf.conf`. -/
def calculateMd5OfInputPluginConfig (conf : String) : String :=
  md5HexOfString (trimNLCR (calculateMd5Run (readLinesStr conf)).acc)

theorem md5Step_pre (line : String) (ln : Int) (acc : String)
    (hline : strContains line InputPluginStartMd5 = false)
    (hln : 1 ≤ ln) :
    md5Step ⟨false, ln, 0, acc, false⟩ line = ⟨false, ln + 1, 0, acc, false⟩ := by
  simp only [md5Step]
  simp [hline, show ¬(ln = (0:Int)) from by omega]

theorem md5Step_start (line : String) (ln : Int) (acc : String)
    (hline : strContains line InputPluginStartMd5 = true)
    (hln : 1 ≤ ln) :
    md5Step ⟨false, ln, 0, acc, false⟩ line = ⟨true, ln + 1, ln, acc ++ line, false⟩ := by
  have hc : hasContent line = true :=
    hasContent_of_strContains line InputPluginStartMd5 hline (by decide)
  simp only [md5Step]
  simp [hline, hc, show ¬(ln < ln) from by omega]

theorem md5Step_acc (line : String) (ln ip : Int) (acc : String)
    (hip : ip ≠ 0)
    (hline : strContains line PluginEnd = false) :
    md5Step ⟨true, ln, ip, acc, false⟩ line =
      ⟨true, ln + 1, ip, if hasContent line = true then acc ++ line else acc, false⟩ := by
  simp only [md5Step]
  simp [hip, hline]

theorem md5Step_break (line : String) (ln ip : Int) (acc : String)
    (hip : 0 < ip) (hlt : ip < ln)
    (hline : strContains line PluginEnd = true) :
    md5Step ⟨true, ln, ip, acc, false⟩ line = ⟨true, ln, ip, acc, true⟩ := by
  simp only [md5Step]
  simp [hline, hip, hlt, show ip ≠ 0 from by omega, show ¬(ln = ip) from by omega]

theorem md5Fold_broke (T : List String) (st : Md5State) (h : st.broke = true) :
    T.foldl md5Step st = st := by
  induction T with
  | nil => rfl
  | cons l ls ih =>
    rw [List.foldl_cons]
    have hstep : md5Step st l = st := by
      simp only [md5Step]
      rw [if_pos h]
    rw [hstep, ih]

theorem md5Fold_pre (Q : List String) (ln : Int) (acc : String)
    (hQ : ∀ l ∈ Q, strContains l InputPluginStartMd5 = false)
    (hln : 1 ≤ ln) :
    Q.foldl md5Step ⟨false, ln, 0, acc, false⟩ = ⟨false, ln + Q.length, 0, acc, false⟩ := by
  induction Q generalizing ln with
  | nil => simp
  | cons l ls ih =>
    rw [List.foldl_cons, md5Step_pre l ln acc (hQ l (List.mem_cons_self l ls)) hln,
      ih (ln + 1) (fun x hx => hQ x (List.mem_cons_of_mem l hx)) (by omega)]
    have h1 : ln + 1 + (ls.length : Int) = ln + ((l :: ls).length : Int) := by
      push_cast [List.length_cons]; omega
    rw [h1]

theorem md5Fold_acc (M : List String) (ln ip : Int) (acc : String)
    (hip : ip ≠ 0)
    (hM : ∀ l ∈ M, strContains l PluginEnd = false) :
    M.foldl md5Step ⟨true, ln, ip, acc, false⟩ =
      ⟨true, ln + M.length, ip,
        acc ++ joinLines (M.filter (fun l => hasContent l)), false⟩ := by
  induction M generalizing ln acc with
  | nil => simp [joinLines, string_append_empty]
  | cons l ls ih =>
    rw [List.foldl_cons, md5Step_acc l ln ip acc hip (hM l (List.mem_cons_self l ls))]
    have h1 : ln + 1 + (ls.length : Int) = ln + ((l :: ls).length : Int) := by
      push_cast [List.length_cons]; omega
    by_cases hc : hasContent l = true
    · rw [if_pos hc, ih (ln + 1) (acc ++ l) (fun x hx => hM x (List.mem_cons_of_mem l hx)),
        h1]
      have h2 : acc ++ l ++ joinLines (List.filter (fun l => hasContent l) ls) =
          acc ++ joinLines (List.filter (fun l => hasContent l) (l :: ls)) := by
        rw [List.filter_cons_of_pos hc]
        show _ = acc ++ (l ++ joinLines (List.filter (fun l => hasContent l) ls))
        rw [string_append_assoc]
      rw [h2]
    · rw [if_neg hc, ih (ln + 1) acc (fun x hx => hM x (List.mem_cons_of_mem l hx)), h1]
      have h2 : List.filter (fun l => hasContent l) (l :: ls) =
          List.filter (fun l => hasContent l) ls :=
        List.filter_cons_of_neg (by simpa using hc)
      rw [h2]

/-- Accumulated managed-section text of `calculateMd5OfInputPluginConfig`:
the first `"[[inputs."` line followed by the non-blank lines up to the
first separator line strictly after it. -/
theorem calculateMd5Run_shape (Q : List String) (g : String) (M : List String)
    (e : String) (rest : List String)
    (hQ : ∀ l ∈ Q, strContains l InputPluginStartMd5 = false)
    (hg : strContains g InputPluginStartMd5 = true)
    (hM : ∀ l ∈ M, strContains l PluginEnd = false)
    (he : strContains e PluginEnd = true) :
    (calculateMd5Run (Q ++ g :: (M ++ e :: rest))).acc =
      g ++ joinLines (M.filter (fun l => hasContent l)) := by
  unfold calculateMd5Run
  rw [List.foldl_append, md5Fold_pre Q 1 "" hQ (by omega)]
  set n : Int := 1 + Q.length with hn
  have hn1 : 1 ≤ n := by omega
  rw [List.foldl_cons, md5Step_start g n "" hg hn1, string_empty_append]
  rw [List.foldl_append, md5Fold_acc M (n + 1) n g (by omega) hM]
  rw [List.foldl_cons, md5Step_break e (n + 1 + M.length) n
    (g ++ joinLines (M.filter (fun l => hasContent l))) (by omega) (by omega) he]
  rw [md5Fold_broke rest _ rfl]

/-- If no line contains the start sentinel the scan accumulates nothing. -/
theorem calculateMd5Run_noStart (L : List String)
    (hL : ∀ l ∈ L, strContains l InputPluginStartMd5 = false) :
    (calculateMd5Run L).acc = "" := by
  unfold calculateMd5Run
  rw [md5Fold_pre L 1 "" hL (by omega)]

end OutputHttp

/-! ## The fingerprinter, config.go lines 272-336

The `plugins/inputs/config` variant anchors the hashed region at a fixed
offset: `inputPluginLinesStart` is the line number of the banner plus 4,
re-assigned on every banner occurrence (no `== 0` guard), and the break
has no `inputPluginLinesStart > 0` guard.  Kept lines are streamed into
the hasher with no final trimming, which is the same as hashing their
concatenation. -/

namespace InputConfig

/-- Constant `InputPluginStart` of config.go (lines 161, 273). -/
def InputPluginStart : String :=
  "#                            INPUT PLUGINS                                    #"

/-- Constant `PluginEnd` of config.go (lines 162, 274). -/
def PluginEnd : String := "[[inputs.config]]"

/-- One iteration of the scan loop of `calculateMd5OfInputPluginConfig`
(config.go lines 295-328). -/
def md5Step (st : Md5State) (line : String) : Md5State :=
  if st.broke = true then st
  else
    let ipls : Int :=
      if strContains line InputPluginStart = true then st.lineNumber + 4
      else st.inputPluginLinesStart
    let wtb : Bool := if st.lineNumber = ipls then true else st.writeToBuf
    if strContains line PluginEnd = true ∧ ipls < st.lineNumber then
      ⟨wtb, st.lineNumber, ipls, st.acc, true⟩
    else
      ⟨wtb, st.lineNumber + 1, ipls,
        if wtb = true ∧ hasContent line = true then st.acc ++ line else st.acc,
        false⟩

def calculateMd5Run (lines : List String) : Md5State :=
  lines.foldl md5Step ⟨false, 1, 0, "", false⟩

/-- Function `calculateMd5OfInputPluginConfig` (config.go lines 272-336) as a
function of the bytes of `telegraf.conf`. -/
def calculateMd5OfInputPluginConfig (conf : String) : String :=
  md5HexOfString (calculateMd5Run (readLinesStr conf)).acc

end InputConfig

/-! ## Common concrete lines used by witnesses -/

/-- The INPUT PLUGINS banner as a file line. -/
def bannerLine : String := OutputHttp.InputPluginStart ++ "\n"

/-- The full-width separator as a file line. -/
def sepLine : String := OutputHttp.PluginEnd ++ "\n"

/-! ## Claim C1 -/

/-- Claim C1: splicing preserves the file outside the managed section.  For
a configuration file `F` whose complete lines are `P` (none containing the
start sentinel), the start-sentinel line `s`, arbitrary lines
`a b c d`, then `T1` up to the first end-sentinel line `e` strictly after
the fixed offset, then `T2`, the candidate produced by
`updateInputPluginConfig` is byte-identical to `F` before `s` (prefix
`joinLines P`) and byte-identical to `F` from the end-sentinel line onward
(suffix `joinLines (e :: T2)`); only the region in between is replaced by
the inserted chunk. -/
theorem claim_C1_splice_preserves_outside
    (cfg m t F : String) (P : List String) (s a b c d : String)
    (T1 : List String) (e : String) (T2 : List String)
    (hF : F = joinLines (P ++ s :: a :: b :: c :: d :: (T1 ++ e :: T2)))
    (hlines : ∀ l ∈ P ++ s :: a :: b :: c :: d :: (T1 ++ e :: T2), isLineStr l = true)
    (hP : ∀ l ∈ P, strContains l OutputHttp.InputPluginStart = false)
    (hs : strContains s OutputHttp.InputPluginStart = true)
    (hT1 : ∀ l ∈ T1, strContains l OutputHttp.PluginEnd = false)
    (he : strContains e OutputHttp.PluginEnd = true) :
    OutputHttp.updateInputPluginConfigContent cfg m t F =
      joinLines P ++ (s ++ a ++ OutputHttp.insChunk m t cfg) ++ joinLines (e :: T2) := by
  subst hF
  unfold OutputHttp.updateInputPluginConfigContent
  rw [readLinesStr_join _ hlines]
  rw [OutputHttp.spliceRun_shape (OutputHttp.insChunk m t cfg) P s a b c d T1 e T2
    hP hs hT1 he]
  simp only [joinLines, string_append_assoc]

/-- Witness for C1 at a concrete six-section file. -/
theorem claim_C1_witness :
    OutputHttp.updateInputPluginConfigContent "[[inputs.mem]]\n" "m1" "t1"
      (joinLines (["# global\n"] ++ bannerLine :: sepLine :: "\n" :: "# old revision\n" ::
        "\n" :: (["[[inputs.cpu]]\n"] ++ sepLine :: ["# outputs\n"]))) =
      joinLines ["# global\n"] ++
        (bannerLine ++ sepLine ++ OutputHttp.insChunk "m1" "t1" "[[inputs.mem]]\n") ++
        joinLines (sepLine :: ["# outputs\n"]) :=
  claim_C1_splice_preserves_outside "[[inputs.mem]]\n" "m1" "t1" _
    ["# global\n"] bannerLine sepLine "\n" "# old revision\n" "\n"
    ["[[inputs.cpu]]\n"] sepLine ["# outputs\n"]
    rfl (by decide) (by decide) (by decide) (by decide) (by decide)

/-! ## Claim C5 -/

/-- Claim C5: a configuration file with no line containing the start
sentinel `"[[inputs."` fingerprints to the digest of the empty string —
the MD5 of zero bytes — rather than an error (part_000 lines
1006-1072). -/
theorem claim_C5_no_sentinel_gives_empty_digest (F : String)
    (h : ∀ l ∈ readLinesStr F, strContains l OutputHttp.InputPluginStartMd5 = false) :
    OutputHttp.calculateMd5OfInputPluginConfig F = md5HexOfString "" ∧
      md5HexOfString "" = "d41d8cd98f00b204e9800998ecf8427e" := by
  constructor
  · unfold OutputHttp.calculateMd5OfInputPluginConfig
    rw [OutputHttp.calculateMd5Run_noStart _ h,
      show trimNLCR "" = "" from by decide]
  · exact md5_empty_vector

/-- Witness for C5 on a sentinel-free file. -/
theorem claim_C5_witness :
    OutputHttp.calculateMd5OfInputPluginConfig "# just a comment\nkey = 1\n" =
        md5HexOfString "" ∧
      md5HexOfString "" = "d41d8cd98f00b204e9800998ecf8427e" :=
  claim_C5_no_sentinel_gives_empty_digest "# just a comment\nkey = 1\n" (by decide)

/-! ## Claim C4 -/

/-- Claim C4 counterexample: for the config.go fingerprint the claim fails.
The two files below agree outside the managed section and their managed
sections (between the banner line and the `[[inputs.config]]` end line)
differ only by removing one blank line, yet the digests differ: the
variant anchors hashing at banner line + 4, so removing the blank shifts
which lines fall inside the hashed window. -/
theorem claim_C4_counterexample :
    (["x\n", "\n", "A\n", "B\n"].filter (fun l => hasContent l) =
        ["x\n", "A\n", "B\n"].filter (fun l => hasContent l)) ∧
      InputConfig.calculateMd5OfInputPluginConfig
          (joinLines ([bannerLine] ++ ["x\n", "\n", "A\n", "B\n"] ++
            ["[[inputs.config]]\n"])) ≠
        InputConfig.calculateMd5OfInputPluginConfig
          (joinLines ([bannerLine] ++ ["x\n", "A\n", "B\n"] ++
            ["[[inputs.config]]\n"])) := by
  decide

/-- Claim C4 amended: the blank-line insensitivity holds for the part_000
fingerprint, which anchors at the first `"[[inputs."` line itself: two
files equal outside the managed section whose sections differ only by
blank (whitespace-only) lines produce the same digest. -/
theorem claim_C4_amended_blank_insensitive (F1 F2 : String)
    (Q M M' rest : List String) (g e : String)
    (h1 : readLinesStr F1 = Q ++ g :: (M ++ e :: rest))
    (h2 : readLinesStr F2 = Q ++ g :: (M' ++ e :: rest))
    (hQ : ∀ l ∈ Q, strContains l OutputHttp.InputPluginStartMd5 = false)
    (hg : strContains g OutputHttp.InputPluginStartMd5 = true)
    (hM : ∀ l ∈ M, strContains l OutputHttp.PluginEnd = false)
    (hM' : ∀ l ∈ M', strContains l OutputHttp.PluginEnd = false)
    (he : strContains e OutputHttp.PluginEnd = true)
    (hfilter : M.filter (fun l => hasContent l) = M'.filter (fun l => hasContent l)) :
    OutputHttp.calculateMd5OfInputPluginConfig F1 =
      OutputHttp.calculateMd5OfInputPluginConfig F2 := by
  unfold OutputHttp.calculateMd5OfInputPluginConfig
  rw [h1, h2, OutputHttp.calculateMd5Run_shape Q g M e rest hQ hg hM he,
    OutputHttp.calculateMd5Run_shape Q g M' e rest hQ hg hM' he, hfilter]

/-- Witness for the amended C4 on two concrete files differing by the
position of one blank line inside the managed section. -/
theorem claim_C4_amended_witness :
    OutputHttp.calculateMd5OfInputPluginConfig
        (joinLines (["# head\n"] ++ "[[inputs.cpu]]\n" :: (["a = 1\n", "\n"] ++
          sepLine :: ["# tail\n"]))) =
      OutputHttp.calculateMd5OfInputPluginConfig
        (joinLines (["# head\n"] ++ "[[inputs.cpu]]\n" :: (["\n", "a = 1\n"] ++
          sepLine :: ["# tail\n"]))) :=
  by
  refine claim_C4_amended_blank_insensitive
    (joinLines (["# head\n"] ++ "[[inputs.cpu]]\n" :: (["a = 1\n", "\n"] ++
      sepLine :: ["# tail\n"])))
    (joinLines (["# head\n"] ++ "[[inputs.cpu]]\n" :: (["\n", "a = 1\n"] ++
      sepLine :: ["# tail\n"])))
    ["# head\n"] ["a = 1\n", "\n"] ["\n", "a = 1\n"] ["# tail\n"]
    "[[inputs.cpu]]\n" sepLine ?_ ?_ ?_ ?_ ?_ ?_ ?_ ?_ <;> decide

/-! ## Claim C8 -/

theorem endsNL_append_nl (x : List Char) : endsNL (x ++ ['\n']) = true := by
  induction x with
  | nil => rfl
  | cons c cs ih =>
    rw [List.cons_append, endsNL_cons_of_ne_nil c _ (by simp)]
    exact ih

theorem endsNL_string_append_nl (x : String) : endsNL ((x ++ "\n").data) = true := by
  rw [string_data_append, show ("\n" : String).data = ['\n'] from rfl]
  exact endsNL_append_nl x.data

/-- A blank line cannot contain a pattern that has a non-blank
character. -/
theorem strContains_false_of_blank (l p : String)
    (hb : hasContent l = false) (hp : hasContent p = true) :
    strContains l p = false := by
  cases hcase : strContains l p
  · rfl
  · exact absurd (hasContent_of_strContains l p hcase hp) (by simp [hb])

/-- The digest computed directly from the non-blank lines of a replacement
text `R` (its lines taken after supplying the final newline that the
splicer itself appends), with the trimming the fingerprinter applies. -/
def md5OfNonBlankLines (R : String) : String :=
  md5HexOfString (trimNLCR (joinLines
    ((readLinesStr (R ++ "\n")).filter (fun l => hasContent l))))

/-- Claim C8: round-trip.  Splicing replacement text `cfg` into a well-formed
configuration file and fingerprinting the result yields exactly the digest
of the non-blank lines of `cfg`, provided the surrounding lines carry no
`"[[inputs."` occurrence, `cfg`'s lines start (after blanks) with a
`"[[inputs."` line and contain no separator line. -/
theorem claim_C8_roundtrip
    (cfg m t F : String) (P : List String) (s a b c d : String)
    (T1 : List String) (e : String) (T2 : List String)
    (B M : List String) (g : String)
    (hF : F = joinLines (P ++ s :: a :: b :: c :: d :: (T1 ++ e :: T2)))
    (hlines : ∀ l ∈ P ++ s :: a :: b :: c :: d :: (T1 ++ e :: T2), isLineStr l = true)
    (hP : ∀ l ∈ P, strContains l OutputHttp.InputPluginStart = false)
    (hs : strContains s OutputHttp.InputPluginStart = true)
    (hT1 : ∀ l ∈ T1, strContains l OutputHttp.PluginEnd = false)
    (he : strContains e OutputHttp.PluginEnd = true)
    (hRL : readLinesStr (cfg ++ "\n") = B ++ g :: M)
    (hB : ∀ l ∈ B, hasContent l = false)
    (hg : strContains g OutputHttp.InputPluginStartMd5 = true)
    (hnoEnd : ∀ l ∈ B ++ g :: M, strContains l OutputHttp.PluginEnd = false)
    (hPmd5 : ∀ l ∈ P, strContains l OutputHttp.InputPluginStartMd5 = false)
    (hsmd5 : strContains s OutputHttp.InputPluginStartMd5 = false)
    (hamd5 : strContains a OutputHttp.InputPluginStartMd5 = false)
    (hrev : strContains (OutputHttp.revisionLine m t) OutputHttp.InputPluginStartMd5 = false)
    (hrevLine : isLineStr (OutputHttp.revisionLine m t) = true) :
    OutputHttp.calculateMd5OfInputPluginConfig
        (OutputHttp.updateInputPluginConfigContent cfg m t F) =
      md5OfNonBlankLines cfg := by
  subst hF
  have hsL : isLineStr s = true := hlines s (by simp)
  have haL : isLineStr a = true := hlines a (by simp)
  have heL : isLineStr e = true := hlines e (by simp)
  have hPL : ∀ l ∈ P, isLineStr l = true := fun l hl => hlines l (by simp [hl])
  have hT2L : ∀ l ∈ T2, isLineStr l = true := fun l hl => hlines l (by simp [hl])
  have hout : OutputHttp.updateInputPluginConfigContent cfg m t
      (joinLines (P ++ s :: a :: b :: c :: d :: (T1 ++ e :: T2))) =
      joinLines P ++ s ++ a ++ OutputHttp.insChunk m t cfg ++ (e ++ joinLines T2) := by
    unfold OutputHttp.updateInputPluginConfigContent
    rw [readLinesStr_join _ hlines,
      OutputHttp.spliceRun_shape _ P s a b c d T1 e T2 hP hs hT1 he]
  have hS : joinLines P ++ s ++ a ++ OutputHttp.insChunk m t cfg ++ (e ++ joinLines T2) =
      joinLines P ++ (s ++ (a ++ (OutputHttp.revisionLine m t ++
        ("\n" ++ ((cfg ++ "\n") ++ joinLines (e :: T2)))))) := by
    unfold OutputHttp.insChunk
    simp only [joinLines, string_append_assoc]
  have hreads : readLinesStr (joinLines P ++ (s ++ (a ++ (OutputHttp.revisionLine m t ++
      ("\n" ++ ((cfg ++ "\n") ++ joinLines (e :: T2))))))) =
      P ++ s :: a :: OutputHttp.revisionLine m t :: "\n" :: ((B ++ g :: M) ++ e :: T2) := by
    rw [readLinesStr_join_append P _ hPL,
      readLinesStr_line_cons s _ hsL,
      readLinesStr_line_cons a _ haL,
      readLinesStr_line_cons (OutputHttp.revisionLine m t) _ hrevLine,
      readLinesStr_line_cons "\n" _ (by decide),
      readLinesStr_append (cfg ++ "\n") _ (endsNL_string_append_nl cfg),
      readLinesStr_join (e :: T2) (by
        intro l hl
        rcases List.mem_cons.mp hl with h1 | h2
        · subst h1; exact heL
        · exact hT2L l h2),
      hRL]
  have hlist : P ++ s :: a :: OutputHttp.revisionLine m t :: "\n" ::
      ((B ++ g :: M) ++ e :: T2) =
      (P ++ s :: a :: OutputHttp.revisionLine m t :: "\n" :: B) ++ g :: (M ++ e :: T2) := by
    simp [List.append_assoc]
  have hQ' : ∀ l ∈ P ++ s :: a :: OutputHttp.revisionLine m t :: "\n" :: B,
      strContains l OutputHttp.InputPluginStartMd5 = false := by
    intro l hl
    rcases List.mem_append.mp hl with h1 | h2
    · exact hPmd5 l h1
    · rcases List.mem_cons.mp h2 with h3 | h4
      · subst h3; exact hsmd5
      rcases List.mem_cons.mp h4 with h5 | h6
      · subst h5; exact hamd5
      rcases List.mem_cons.mp h6 with h7 | h8
      · subst h7; exact hrev
      rcases List.mem_cons.mp h8 with h9 | h10
      · subst h9; decide
      · exact strContains_false_of_blank l _ (hB l h10) (by decide)
  have hM' : ∀ l ∈ M, strContains l OutputHttp.PluginEnd = false := by
    intro l hl
    exact hnoEnd l (by simp [hl])
  have hgc : hasContent g = true :=
    hasContent_of_strContains g OutputHttp.InputPluginStartMd5 hg (by decide)
  unfold OutputHttp.calculateMd5OfInputPluginConfig
  rw [hout, hS, hreads, hlist,
    OutputHttp.calculateMd5Run_shape _ g M e T2 hQ' hg hM' he]
  unfold md5OfNonBlankLines
  rw [hRL, List.filter_append, List.filter_cons_of_pos (by simpa using hgc),
    show B.filter (fun l => hasContent l) = [] from
      List.filter_eq_nil_iff.mpr (by intro l hl; simp [hB l hl])]
  rw [List.nil_append]
  rfl

/-- Witness for C8: splice a two-line cpu input into a concrete file and
re-fingerprint. -/
theorem claim_C8_witness :
    OutputHttp.calculateMd5OfInputPluginConfig
        (OutputHttp.updateInputPluginConfigContent "[[inputs.cpu]]\n  x = 1\n" "m1" "t1"
          (joinLines (["# global\n"] ++ bannerLine :: sepLine :: "\n" :: "# old\n" ::
            "\n" :: (["[[inputs.old]]\n"] ++ sepLine :: ["# outputs\n"])))) =
      md5OfNonBlankLines "[[inputs.cpu]]\n  x = 1\n" := by
  refine claim_C8_roundtrip "[[inputs.cpu]]\n  x = 1\n" "m1" "t1" _
    ["# global\n"] bannerLine sepLine "\n" "# old\n" "\n"
    ["[[inputs.old]]\n"] sepLine ["# outputs\n"]
    [] ["  x = 1\n", "\n"] "[[inputs.cpu]]\n"
    rfl ?_ ?_ ?_ ?_ ?_ ?_ ?_ ?_ ?_ ?_ ?_ ?_ ?_ ?_ <;> decide

/-! ## Decimal integers: models of `strconv.Atoi` and `strconv.Itoa` -/

def digitVal (c : Char) : Option Nat :=
  if 48 ≤ c.toNat ∧ c.toNat ≤ 57 then some (c.toNat - 48) else none

def parseDigitsAux (acc : Nat) : List Char → Option Nat
  | [] => some acc
  | c :: cs =>
    match digitVal c with
    | none => none
    | some d => parseDigitsAux (acc * 10 + d) cs

def parseDigits (l : List Char) : Option Nat :=
  match l with
  | [] => none
  | c :: cs => parseDigitsAux 0 (c :: cs)

/-- Model of Go's `strconv.Atoi`: optional sign, one or more decimal
digits, anything else an error (64-bit overflow not modelled). -/
def atoi (s : String) : Option Int :=
  match s.data with
  | [] => none
  | c :: rest =>
    if c = '+' then Option.map (fun m => Int.ofNat m) (parseDigits rest)
    else if c = '-' then Option.map (fun m => -(Int.ofNat m)) (parseDigits rest)
    else Option.map (fun m => Int.ofNat m) (parseDigits (c :: rest))

/-- Decimal digits of a natural number, most significant first; the fuel
(always sufficient at `n + 1`) keeps the recursion structural. -/
def natDigitsAux : Nat → Nat → List Char
  | 0, _ => []
  | fuel + 1, n =>
    if n < 10 then [hexDigitChar n]
    else natDigitsAux fuel (n / 10) ++ [hexDigitChar (n % 10)]

def natDigits (n : Nat) : List Char := natDigitsAux (n + 1) n

/-- Model of Go's `strconv.Itoa`. -/
def itoa (n : Int) : String :=
  match n with
  | .ofNat m => ⟨natDigits m⟩
  | .negSucc m => ⟨'-' :: natDigits (m + 1)⟩

theorem digitVal_hexDigitChar (n : Nat) (h : n < 10) :
    digitVal (hexDigitChar n) = some n := by
  interval_cases n <;> decide

theorem parseDigitsAux_append (acc : Nat) (xs ys : List Char) :
    parseDigitsAux acc (xs ++ ys) =
      match parseDigitsAux acc xs with
      | none => none
      | some a => parseDigitsAux a ys := by
  induction xs generalizing acc with
  | nil => rfl
  | cons c cs ih =>
    rw [List.cons_append]
    show (match digitVal c with
      | none => none
      | some d => parseDigitsAux (acc * 10 + d) (cs ++ ys)) = _
    cases hd : digitVal c with
    | none => simp [parseDigitsAux, hd]
    | some d => simp [parseDigitsAux, hd, ih]

theorem parseDigitsAux_natDigitsAux (fuel : Nat) :
    ∀ n acc, n < fuel →
      parseDigitsAux acc (natDigitsAux fuel n) =
        some (acc * 10 ^ (natDigitsAux fuel n).length + n) := by
  induction fuel with
  | zero => intro n acc h; omega
  | succ f ih =>
    intro n acc h
    by_cases h10 : n < 10
    · rw [natDigitsAux, if_pos h10]
      show (match digitVal (hexDigitChar n) with
        | none => none
        | some d => parseDigitsAux (acc * 10 + d) []) = _
      rw [digitVal_hexDigitChar n h10]
      show some (acc * 10 + n) = some (acc * 10 ^ ([hexDigitChar n]).length + n)
      norm_num
    · have hdiv : n / 10 < f := by
        have h1 : n / 10 < n := Nat.div_lt_self (by omega) (by omega)
        omega
      rw [natDigitsAux, if_neg h10, parseDigitsAux_append, ih (n / 10) acc hdiv]
      show parseDigitsAux (acc * 10 ^ (natDigitsAux f (n / 10)).length + n / 10)
          [hexDigitChar (n % 10)] = _
      show (match digitVal (hexDigitChar (n % 10)) with
        | none => none
        | some d =>
          parseDigitsAux ((acc * 10 ^ (natDigitsAux f (n / 10)).length + n / 10) * 10 + d)
            []) = _
      rw [digitVal_hexDigitChar (n % 10) (by omega)]
      show some ((acc * 10 ^ (natDigitsAux f (n / 10)).length + n / 10) * 10 + n % 10) = _
      congr 1
      rw [List.length_append, List.length_singleton, pow_succ]
      have := Nat.div_add_mod n 10
      ring_nf
      omega

theorem natDigitsAux_head (fuel : Nat) :
    ∀ n, n < fuel → ∃ c cs, natDigitsAux fuel n = c :: cs ∧ (digitVal c).isSome = true := by
  induction fuel with
  | zero => intro n h; omega
  | succ f ih =>
    intro n h
    by_cases h10 : n < 10
    · refine ⟨hexDigitChar n, [], by rw [natDigitsAux, if_pos h10], ?_⟩
      rw [digitVal_hexDigitChar n h10]; rfl
    · have hdiv : n / 10 < f := by
        have h1 : n / 10 < n := Nat.div_lt_self (by omega) (by omega)
        omega
      obtain ⟨c, cs, hc, hd⟩ := ih (n / 10) hdiv
      exact ⟨c, cs ++ [hexDigitChar (n % 10)], by rw [natDigitsAux, if_neg h10, hc]; rfl, hd⟩

theorem digitVal_ne_sign (c : Char) (h : (digitVal c).isSome = true) :
    c ≠ '+' ∧ c ≠ '-' := by
  constructor <;> intro he <;> subst he <;> simp [digitVal] at h

theorem parseDigits_natDigits (n : Nat) : parseDigits (natDigits n) = some n := by
  obtain ⟨c, cs, hc, -⟩ := natDigitsAux_head (n + 1) n (by omega)
  unfold natDigits
  rw [hc]
  show parseDigitsAux 0 (c :: cs) = some n
  rw [← hc]
  rw [parseDigitsAux_natDigitsAux (n + 1) n 0 (by omega)]
  norm_num

theorem atoi_cons (c : Char) (cs : List Char) (s : String) (h : s.data = c :: cs) :
    atoi s =
      if c = '+' then Option.map (fun m => Int.ofNat m) (parseDigits cs)
      else if c = '-' then Option.map (fun m => -(Int.ofNat m)) (parseDigits cs)
      else Option.map (fun m => Int.ofNat m) (parseDigits (c :: cs)) := by
  unfold atoi
  rw [h]

theorem atoi_itoa (n : Int) : atoi (itoa n) = some n := by
  cases n with
  | ofNat m =>
    show atoi ⟨natDigits m⟩ = some (Int.ofNat m)
    obtain ⟨c, cs, hc, hd⟩ := natDigitsAux_head (m + 1) m (by omega)
    have hsign := digitVal_ne_sign c hd
    have hdata : (⟨natDigits m⟩ : String).data = c :: cs := hc
    rw [atoi_cons c cs _ hdata, if_neg hsign.1, if_neg hsign.2, ← hc]
    show Option.map (fun k => Int.ofNat k) (parseDigits (natDigits m)) = some (Int.ofNat m)
    rw [parseDigits_natDigits m]
    rfl
  | negSucc m =>
    show atoi ⟨'-' :: natDigits (m + 1)⟩ = some (Int.negSucc m)
    rw [atoi_cons '-' (natDigits (m + 1)) _ rfl, if_neg (by decide), if_pos rfl,
      parseDigits_natDigits (m + 1)]
    show some (-(Int.ofNat (m + 1))) = some (Int.negSucc m)
    rw [Int.negSucc_eq]
    norm_num

theorem natDigitsAux_all_digits (fuel : Nat) :
    ∀ n, n < fuel → ∀ c ∈ natDigitsAux fuel n, (digitVal c).isSome = true := by
  induction fuel with
  | zero => intro n h; omega
  | succ f ih =>
    intro n h c hc
    by_cases h10 : n < 10
    · rw [natDigitsAux, if_pos h10] at hc
      rcases List.mem_singleton.mp hc with rfl
      rw [digitVal_hexDigitChar n h10]; rfl
    · have hdiv : n / 10 < f := by
        have h1 : n / 10 < n := Nat.div_lt_self (by omega) (by omega)
        omega
      rw [natDigitsAux, if_neg h10] at hc
      rcases List.mem_append.mp hc with h1 | h2
      · exact ih (n / 10) hdiv c h1
      · rcases List.mem_singleton.mp h2 with rfl
        rw [digitVal_hexDigitChar (n % 10) (by omega)]; rfl

/-! ## File-system events and a small store semantics -/

inductive FsEv where
  | createFile (path : String)
  | writeFile (path : String) (content : String)
  | removeFile (path : String)
  | renameFile (src dst : String)
  | fetchRequest
  | testLoad (ok : Bool)
  | execRestart
  | exitProcess
deriving DecidableEq

/-- Association-list file store: path to content. -/
abbrev FsMap := List (String × String)

def fsRead : FsMap → String → Option String
  | [], _ => none
  | kv :: rest, p => if kv.1 = p then some kv.2 else fsRead rest p

def fsRemove : FsMap → String → FsMap
  | [], _ => []
  | kv :: rest, p => if kv.1 = p then fsRemove rest p else kv :: fsRemove rest p

def fsSet (fs : FsMap) (p v : String) : FsMap := (p, v) :: fsRemove fs p

def applyEv (fs : FsMap) : FsEv → FsMap
  | .createFile p => fsSet fs p ""
  | .writeFile p c => fsSet fs p c
  | .removeFile p => fsRemove fs p
  | .renameFile src dst =>
    match fsRead fs src with
    | none => fs
    | some c => fsSet (fsRemove fs src) dst c
  | _ => fs

def applyEvents (fs : FsMap) (evs : List FsEv) : FsMap := evs.foldl applyEv fs

theorem fsRead_remove_ne (fs : FsMap) (p q : String) (h : ¬(q = p)) :
    fsRead (fsRemove fs p) q = fsRead fs q := by
  induction fs with
  | nil => rfl
  | cons kv rest ih =>
    show fsRead (if kv.1 = p then fsRemove rest p else kv :: fsRemove rest p) q = _
    by_cases hk : kv.1 = p
    · rw [if_pos hk, ih]
      show _ = if kv.1 = q then some kv.2 else fsRead rest q
      rw [if_neg (by rw [hk]; exact fun he => h he.symm)]
    · rw [if_neg hk]
      show (if kv.1 = q then some kv.2 else fsRead (fsRemove rest p) q) = _
      by_cases hq : kv.1 = q
      · rw [if_pos hq]
        show _ = if kv.1 = q then some kv.2 else fsRead rest q
        rw [if_pos hq]
      · rw [if_neg hq, ih]
        show _ = if kv.1 = q then some kv.2 else fsRead rest q
        rw [if_neg hq]

theorem fsRead_remove_eq (fs : FsMap) (p : String) :
    fsRead (fsRemove fs p) p = none := by
  induction fs with
  | nil => rfl
  | cons kv rest ih =>
    show fsRead (if kv.1 = p then fsRemove rest p else kv :: fsRemove rest p) p = none
    by_cases hk : kv.1 = p
    · rw [if_pos hk]; exact ih
    · rw [if_neg hk]
      show (if kv.1 = p then some kv.2 else fsRead (fsRemove rest p) p) = none
      rw [if_neg hk]; exact ih

theorem fsRead_set_eq (fs : FsMap) (p v : String) :
    fsRead (fsSet fs p v) p = some v := by
  show (if p = p then some v else fsRead (fsRemove fs p) p) = some v
  rw [if_pos rfl]

theorem fsRead_set_ne (fs : FsMap) (p v q : String) (h : ¬(q = p)) :
    fsRead (fsSet fs p v) q = fsRead fs q := by
  show (if p = q then some v else fsRead (fsRemove fs p) q) = _
  rw [if_neg (fun he => h he.symm), fsRead_remove_ne fs p q h]

/-! ## Variant 1 (part_000 lines 1-616): validating config update and
poll dispatch -/

namespace V1

/-- The comment line inserted by the variant-1 splicer (part_000 lines
423-424); same loop as the variant-2 splicer otherwise. -/
def configUpdatedLine (t : String) : String :=
  "# Config last updated on: " ++ t ++ "                           #\n"

/-- Bytes written to `telegraf.conf.new` by the variant-1
`updateInputPluginConfig` (part_000 lines 380-548). -/
def spliceContent (cfg t conf : String) : String :=
  (OutputHttp.spliceRun (configUpdatedLine t ++ "\n" ++ cfg ++ "\n")
    (readLinesStr conf)).out

/-- Variant-1 `updateInputPluginConfig` (part_000 lines 380-548) on the
happy I/O path: create and write the candidate, test-load it (the
external `telegraf --test` run on non-Windows, the
config.LoadConfig/agent.Test pipeline on Windows; its outcome is the
parameter `valOk`), and on failure remove the candidate and swallow the
error.  The commit at lines 529-539 is commented out in the source, so no
event ever touches `telegraf.conf`.  The first component is the return
value (`some ()` is Go's `nil`). -/
def updateInputPluginConfig (cfg t conf : String) (valOk : Bool) :
    Option Unit × List FsEv :=
  let evs : List FsEv :=
    [.createFile "telegraf.conf.new",
     .writeFile "telegraf.conf.new" (spliceContent cfg t conf),
     .testLoad valOk]
  if valOk = true then (some (), evs)
  else (some (), evs ++ [.removeFile "telegraf.conf.new"])

/-- Variant-1 `updateTelegraf` (part_000 lines 286-368), non-Windows
branch: issue the fetch-update request; a non-200 response is a no-op;
on 200 stream the body to `/tmp/telegraf` and exit so the service manager
restarts the agent. -/
def updateTelegrafEvents (fetchStatus : Int) (fetchBody : String) : List FsEv :=
  [.fetchRequest] ++
    (if fetchStatus = 200 then
      [.createFile "/tmp/telegraf", .writeFile "/tmp/telegraf" fetchBody,
       .exitProcess]
    else [])

/-- Variant-1 `(h *HTTP).write` (part_000 lines 192-255) after the
response arrived: a non-2xx status returns an error (`none`) before any
branch runs; a 200 response dispatches to the config update (whose body
check at lines 276-278 makes an empty or whitespace-only body a no-op); a
202 response dispatches to `updateTelegraf`; any other 2xx does
nothing. -/
def write (status : Int) (body conf t : String) (valOk : Bool)
    (fetchStatus : Int) (fetchBody : String) : Option (List FsEv) :=
  if status < 200 ∨ 300 ≤ status then none
  else if status = 200 then
    if hasContent body = true then
      match updateInputPluginConfig body t conf valOk with
      | (some _, evs) => some evs
      | (none, _) => none
    else some []
  else if status = 202 then some (updateTelegrafEvents fetchStatus fetchBody)
  else some []

end V1

/-! ## Variant 2 (part_000 lines 616-1086): committing config update -/

namespace OutputHttp

/-- Event trace of the variant-2 `updateInputPluginConfig` (part_000
lines 888-1004) on the happy I/O path: write the candidate, then
unconditionally remove the active file, rename the candidate over it and
restart.  The function contains no test-load of any kind. -/
def updateInputPluginConfigEvents (cfg m t conf : String) : List FsEv :=
  [.createFile "telegraf.conf.new",
   .writeFile "telegraf.conf.new" (updateInputPluginConfigContent cfg m t conf),
   .removeFile "telegraf.conf",
   .renameFile "telegraf.conf.new" "telegraf.conf",
   .execRestart]

end OutputHttp

/-! ## Variant 3 (part_000 lines 1087-1630): binary update and revision
store -/

/-- First line of a file as `bufio.Scanner` yields it: up to the first
newline, the newline and a preceding carriage return stripped. -/
def firstLineChars : List Char → List Char
  | [] => []
  | c :: cs => if c = '\n' then [] else c :: firstLineChars cs

def firstLine (s : String) : String :=
  trimSuffixStr ⟨firstLineChars s.data⟩ "\r"

namespace V3

inductive Outcome where
  | errored
  | completed
deriving DecidableEq

/-- Function `getRevision` (part_000 lines 1605-1630): read the first line of
`<path>/telegraf-revision` (the path separator is `/` on the platform
this variant targets) and parse it with `strconv.Atoi`; a missing file or
a non-integer line is an error (`none`). -/
def getRevision (path : String) (fs : FsMap) : Option Int :=
  match fsRead fs (path ++ "/telegraf-revision") with
  | none => none
  | some content => atoi (firstLine content)

/-- Function `updateTelegraf` (part_000 lines 1358-1454): read the current
revision (error if that fails), issue the fetch-update request; a non-200
response ends the cycle unchanged; on 200 parse the `Revision` header
with `Atoi` (error if it does not parse), write its canonical decimal to
the fixed path `/tmp/telegraf-revision`, stream the body to
`/tmp/telegraf`, then ask the service manager to restart. -/
def updateTelegraf (cfp : String) (fetchStatus : Int) (revHeader fetchBody : String)
    (fs : FsMap) : Outcome × FsMap :=
  match getRevision cfp fs with
  | none => (.errored, fs)
  | some _ =>
    if fetchStatus = 200 then
      match atoi revHeader with
      | none => (.errored, fs)
      | some n =>
        (.completed,
          fsSet (fsSet fs "/tmp/telegraf-revision" (itoa n)) "/tmp/telegraf" fetchBody)
    else (.completed, fs)

end V3

/-! ## Properties of `itoa` needed by the revision store -/

theorem firstLineChars_no_nl (l : List Char) (h : '\n' ∉ l) :
    firstLineChars l = l := by
  induction l with
  | nil => rfl
  | cons c cs ih =>
    have hc : ¬(c = '\n') := fun he => h (he ▸ List.mem_cons_self c cs)
    rw [firstLineChars, if_neg hc, ih (fun hm => h (List.mem_cons_of_mem c hm))]

theorem itoa_chars (n : Int) :
    ∀ c ∈ (itoa n).data, c = '-' ∨ (digitVal c).isSome = true := by
  cases n with
  | ofNat m =>
    intro c hc
    right
    exact natDigitsAux_all_digits (m + 1) m (by omega) c hc
  | negSucc m =>
    intro c hc
    rcases List.mem_cons.mp hc with h1 | h2
    · left; exact h1
    · right; exact natDigitsAux_all_digits (m + 1 + 1) (m + 1) (by omega) c h2

theorem no_nl_in_itoa (n : Int) : '\n' ∉ (itoa n).data := by
  intro h
  rcases itoa_chars n '\n' h with h1 | h2
  · exact absurd h1 (by decide)
  · exact absurd h2 (by decide)

theorem no_cr_suffixOf_itoa (n : Int) :
    ("\r" : String).data.isSuffixOf (itoa n).data = false := by
  cases hcase : ("\r" : String).data.isSuffixOf (itoa n).data with
  | false => rfl
  | true =>
    exfalso
    have hsuf : ("\r" : String).data <:+ (itoa n).data :=
      List.isSuffixOf_iff_suffix.mp hcase
    rcases hsuf with ⟨u, hu⟩
    have hmem : '\r' ∈ (itoa n).data := by
      rw [← hu]
      exact List.mem_append_right u (by decide)
    rcases itoa_chars n '\r' hmem with h1 | h2
    · exact absurd h1 (by decide)
    · exact absurd h2 (by decide)

theorem firstLine_itoa (n : Int) : firstLine (itoa n) = itoa n := by
  unfold firstLine
  rw [firstLineChars_no_nl _ (no_nl_in_itoa n)]
  have heta : (⟨(itoa n).data⟩ : String) = itoa n := rfl
  rw [heta]
  unfold trimSuffixStr
  rw [if_neg (by simp [no_cr_suffixOf_itoa n])]

/-! ## Claim C2 -/

/-- Claim C2: the committing config-update path (part_000 lines 888-1004,
likewise 1466-1581) removes the active `telegraf.conf` and renames the
candidate over it while performing no test-load whatsoever: there is no
validation event in its trace, so the remove cannot be preceded by a
successful test-load.  (Only the non-committing variant at lines 380-548
test-loads, and it never removes or renames the active file.) -/
theorem claim_C2_commit_without_validation (cfg m t conf : String) :
    FsEv.removeFile "telegraf.conf" ∈
        OutputHttp.updateInputPluginConfigEvents cfg m t conf ∧
      FsEv.renameFile "telegraf.conf.new" "telegraf.conf" ∈
        OutputHttp.updateInputPluginConfigEvents cfg m t conf ∧
      ∀ ok : Bool, FsEv.testLoad ok ∉
        OutputHttp.updateInputPluginConfigEvents cfg m t conf := by
  refine ⟨?_, ?_, ?_⟩ <;> simp [OutputHttp.updateInputPluginConfigEvents]

/-! ## Claim C3 -/

/-- Claim C3: in the validating variant (part_000 lines 380-548), a
candidate that fails the test-load is removed, the function returns `nil`
(no error fatal to the agent), the active `telegraf.conf` is untouched
byte for byte, and the trace contains no remove of the active file. -/
theorem claim_C3_rejection_keeps_active (cfg t conf : String) (fs : FsMap) :
    (V1.updateInputPluginConfig cfg t conf false).1 = some () ∧
      fsRead (applyEvents fs (V1.updateInputPluginConfig cfg t conf false).2)
          "telegraf.conf" = fsRead fs "telegraf.conf" ∧
      fsRead (applyEvents fs (V1.updateInputPluginConfig cfg t conf false).2)
          "telegraf.conf.new" = none ∧
      FsEv.removeFile "telegraf.conf" ∉
        (V1.updateInputPluginConfig cfg t conf false).2 ∧
      FsEv.removeFile "telegraf.conf.new" ∈
        (V1.updateInputPluginConfig cfg t conf false).2 := by
  have hevs : (V1.updateInputPluginConfig cfg t conf false).2 =
      [.createFile "telegraf.conf.new",
       .writeFile "telegraf.conf.new" (V1.spliceContent cfg t conf),
       .testLoad false, .removeFile "telegraf.conf.new"] := by
    simp [V1.updateInputPluginConfig]
  refine ⟨by simp [V1.updateInputPluginConfig], ?_, ?_, ?_, ?_⟩
  · rw [hevs]
    show fsRead (fsRemove (fsSet (fsSet fs "telegraf.conf.new" "")
      "telegraf.conf.new" (V1.spliceContent cfg t conf)) "telegraf.conf.new")
      "telegraf.conf" = fsRead fs "telegraf.conf"
    rw [fsRead_remove_ne _ _ _ (by decide), fsRead_set_ne _ _ _ _ (by decide),
      fsRead_set_ne _ _ _ _ (by decide)]
  · rw [hevs]
    show fsRead (fsRemove (fsSet (fsSet fs "telegraf.conf.new" "")
      "telegraf.conf.new" (V1.spliceContent cfg t conf)) "telegraf.conf.new")
      "telegraf.conf.new" = none
    exact fsRead_remove_eq _ _
  · rw [hevs]; simp
  · rw [hevs]; simp

/-! ## Claim C6 -/

/-- Claim C6 counterexample: the claim "every 2xx response with an empty
body writes no file and is a no-op" fails at status 202: the empty-body
202 response triggers the fetch-update exchange, and when that fetch
succeeds a file is written. -/
theorem claim_C6_counterexample :
    (200 ≤ (202 : Int) ∧ (202 : Int) < 300 ∧ hasContent "" = false) ∧
      V1.write 202 "" "conf" "t" true 200 "BIN" ≠ some [] ∧
      FsEv.writeFile "/tmp/telegraf" "BIN" ∈
        (V1.write 202 "" "conf" "t" true 200 "BIN").getD [] := by
  decide

/-- Claim C6 amended: classification is purely by status code, with 202
taking precedence over the empty-body rule: a 2xx other than 200 and 202
is a no-op; a 200 with empty or whitespace-only body writes nothing; a
200 with non-empty body runs the splice/validate pipeline on the body; a
202 issues the follow-up fetch-update request (which may itself write
files). -/
theorem claim_C6_amended_status_dispatch (status : Int) (body conf t : String)
    (valOk : Bool) (fetchStatus : Int) (fetchBody : String) :
    (200 ≤ status → status < 300 → status ≠ 200 → status ≠ 202 →
      V1.write status body conf t valOk fetchStatus fetchBody = some []) ∧
      (status = 200 → hasContent body = false →
        V1.write status body conf t valOk fetchStatus fetchBody = some []) ∧
      (status = 200 → hasContent body = true →
        V1.write status body conf t valOk fetchStatus fetchBody =
          some (V1.updateInputPluginConfig body t conf valOk).2) ∧
      (status = 202 →
        V1.write status body conf t valOk fetchStatus fetchBody =
          some (V1.updateTelegrafEvents fetchStatus fetchBody) ∧
        FsEv.fetchRequest ∈ V1.updateTelegrafEvents fetchStatus fetchBody) := by
  refine ⟨?_, ?_, ?_, ?_⟩
  · intro h1 h2 h3 h4
    unfold V1.write
    rw [if_neg (by omega), if_neg h3, if_neg h4]
  · intro h1 h2
    subst h1
    unfold V1.write
    rw [if_neg (by omega), if_pos rfl, if_neg (by simp [h2])]
  · intro h1 h2
    subst h1
    unfold V1.write
    rw [if_neg (by omega), if_pos rfl, if_pos h2]
    by_cases hv : valOk = true <;> simp [V1.updateInputPluginConfig, hv]
  · intro h1
    subst h1
    unfold V1.write
    rw [if_neg (by omega), if_neg (by omega), if_pos rfl]
    exact ⟨rfl, by simp [V1.updateTelegrafEvents]⟩

/-- Witness for the amended C6 at a 204 response. -/
theorem claim_C6_amended_witness :
    V1.write 204 "" "c" "t" true 0 "" = some [] :=
  (claim_C6_amended_status_dispatch 204 "" "c" "t" true 0 "").1
    (by decide) (by decide) (by decide) (by decide)

/-! ## Claim C7 -/

/-- Claim C7: any status outside 2xx makes variant-1 `write` return an
error before either update branch can run; no file-system event is
produced and any store is left exactly as it was. -/
theorem claim_C7_non2xx_error_no_mutation (status : Int) (body conf t : String)
    (valOk : Bool) (fetchStatus : Int) (fetchBody : String) (fs : FsMap)
    (h : status < 200 ∨ 300 ≤ status) :
    V1.write status body conf t valOk fetchStatus fetchBody = none ∧
      applyEvents fs
        ((V1.write status body conf t valOk fetchStatus fetchBody).getD []) = fs := by
  have hw : V1.write status body conf t valOk fetchStatus fetchBody = none := by
    unfold V1.write
    rw [if_pos h]
  exact ⟨hw, by rw [hw]; rfl⟩

/-- Witness for C7 at a 500 response. -/
theorem claim_C7_witness :
    V1.write 500 "b" "conf" "t" true 200 "x" = none ∧
      applyEvents [("telegraf.conf", "z")]
        ((V1.write 500 "b" "conf" "t" true 200 "x").getD []) =
        [("telegraf.conf", "z")] :=
  claim_C7_non2xx_error_no_mutation 500 "b" "conf" "t" true 200 "x"
    [("telegraf.conf", "z")] (by decide)

/-! ## Claim C9 -/

/-- Claim C9 counterexample: the function `updateTelegraf` writes the new revision to the
fixed path `/tmp/telegraf-revision`, while `getRevision` reads
`ConfigFilePath/telegraf-revision`; with `ConfigFilePath` set to
`/etc/telegraf` the fetch succeeds with header revision `2`, the marker
`/tmp/telegraf-revision` holds `2`, yet `getRevision` still returns the
old value `1` — refuting "getRevision after the restart returns that same
value". -/
theorem claim_C9_counterexample :
    (V3.updateTelegraf "/etc/telegraf" 200 "2" "BIN"
        [("/etc/telegraf/telegraf-revision", "1")]).1 = V3.Outcome.completed ∧
      fsRead (V3.updateTelegraf "/etc/telegraf" 200 "2" "BIN"
          [("/etc/telegraf/telegraf-revision", "1")]).2 "/tmp/telegraf-revision" =
        some "2" ∧
      V3.getRevision "/etc/telegraf" (V3.updateTelegraf "/etc/telegraf" 200 "2" "BIN"
          [("/etc/telegraf/telegraf-revision", "1")]).2 = some 1 ∧
      (1 : Int) ≠ 2 := by
  decide

/-- Claim C9 amended: when the fetch-update response is 200 with a header
that `Atoi` parses as `n`, the marker written is the canonical decimal
`itoa n` at the fixed path `/tmp/telegraf-revision`, and a subsequent
`getRevision` returns `n` precisely when `ConfigFilePath` is `/tmp`, so
that both sides use the same path (the startup read of the old marker
must also succeed for the update to run at all). -/
theorem claim_C9_amended_revision_roundtrip (header body : String) (fs : FsMap)
    (n r0 : Int)
    (hr0 : V3.getRevision "/tmp" fs = some r0)
    (hn : atoi header = some n) :
    (V3.updateTelegraf "/tmp" 200 header body fs).1 = V3.Outcome.completed ∧
      fsRead (V3.updateTelegraf "/tmp" 200 header body fs).2
        "/tmp/telegraf-revision" = some (itoa n) ∧
      V3.getRevision "/tmp" (V3.updateTelegraf "/tmp" 200 header body fs).2 =
        some n := by
  have hupd : V3.updateTelegraf "/tmp" 200 header body fs =
      (V3.Outcome.completed,
        fsSet (fsSet fs "/tmp/telegraf-revision" (itoa n)) "/tmp/telegraf" body) := by
    unfold V3.updateTelegraf
    rw [hr0, hn]
    simp
  rw [hupd]
  refine ⟨rfl, ?_, ?_⟩
  · show fsRead (fsSet (fsSet fs "/tmp/telegraf-revision" (itoa n))
      "/tmp/telegraf" body) "/tmp/telegraf-revision" = some (itoa n)
    rw [fsRead_set_ne _ _ _ _ (by decide), fsRead_set_eq]
  · unfold V3.getRevision
    have hpath : ("/tmp" ++ "/telegraf-revision" : String) = "/tmp/telegraf-revision" := by
      decide
    rw [hpath, fsRead_set_ne _ _ _ _ (by decide), fsRead_set_eq]
    show atoi (firstLine (itoa n)) = some n
    rw [firstLine_itoa, atoi_itoa]

/-- Witness for the amended C9 with header `"42"` over an existing marker
`"7"`. -/
theorem claim_C9_amended_witness :
    (V3.updateTelegraf "/tmp" 200 "42" "BIN" [("/tmp/telegraf-revision", "7")]).1 =
        V3.Outcome.completed ∧
      fsRead (V3.updateTelegraf "/tmp" 200 "42" "BIN"
          [("/tmp/telegraf-revision", "7")]).2 "/tmp/telegraf-revision" =
        some (itoa 42) ∧
      V3.getRevision "/tmp" (V3.updateTelegraf "/tmp" 200 "42" "BIN"
          [("/tmp/telegraf-revision", "7")]).2 = some 42 :=
  claim_C9_amended_revision_roundtrip "42" "BIN" [("/tmp/telegraf-revision", "7")]
    42 7 (by decide) (by decide)

/-! ## Claim C10 -/

/-- Claim C10: a final line not terminated by a newline is silently dropped
by both the fingerprinter and the splicer — the digest and the spliced
output of `content ++ tail` (with `tail` newline-free) equal those of
`content` alone, so the fragment is excluded from the digest and absent
from the candidate file. -/
theorem claim_C10_unterminated_final_line_dropped (cfg m t c tail : String)
    (hc : endsNL c.data = true) (htail : '\n' ∉ tail.data) :
    InputConfig.calculateMd5OfInputPluginConfig (c ++ tail) =
        InputConfig.calculateMd5OfInputPluginConfig c ∧
      OutputHttp.updateInputPluginConfigContent cfg m t (c ++ tail) =
        OutputHttp.updateInputPluginConfigContent cfg m t c := by
  have hr : readLinesStr (c ++ tail) = readLinesStr c := by
    rw [readLinesStr_append c tail hc]
    have h0 : readLinesStr tail = [] := by
      unfold readLinesStr
      rw [readLinesChars_no_nl tail.data htail]
      rfl
    rw [h0, List.append_nil]
  constructor
  · unfold InputConfig.calculateMd5OfInputPluginConfig
    rw [hr]
  · unfold OutputHttp.updateInputPluginConfigContent
    rw [hr]

/-- Witness for C10 with trailing fragment `"trailing"`. -/
theorem claim_C10_witness :
    InputConfig.calculateMd5OfInputPluginConfig ("a = 1\n" ++ "trailing") =
        InputConfig.calculateMd5OfInputPluginConfig "a = 1\n" ∧
      OutputHttp.updateInputPluginConfigContent "x\n" "m" "t" ("a = 1\n" ++ "trailing") =
        OutputHttp.updateInputPluginConfigContent "x\n" "m" "t" "a = 1\n" :=
  claim_C10_unterminated_final_line_dropped "x\n" "m" "t" "a = 1\n" "trailing"
    (by decide) (by decide)
